import Mathlib

/-!
# Verification of the spiking-network visualizer's frame engine

Shallow embedding of the frame-sequence / activity-detection / layout logic of
the `spikenetwork` visualization scripts (`visualize_network.py`,
`animate_3d_spiking.py`, `animate_training.py`, `visualize_3d.py`).

Conventions of the embedding:
* Python floats are modelled as rationals (`ℚ`); the potential-jump threshold
  `0.01` becomes `1/100`.
* Python dicts built by comprehensions (`{n['id']: n for n in ...}`) are
  modelled by `reverse.find?` lookups (later entries overwrite earlier ones).
* A Python `set` of edges is modelled as a duplicate-free list built by
  membership-guarded append (`addEdge`); only membership, emptiness, and
  exact contents are ever stated about it.
* Fallible dictionary / list indexing is modelled with `Option` / `Except`.
-/

unseal Rat.add Rat.sub Rat.mul Rat.inv Rat.ofScientific

namespace SpikeNet

/-- One entry of a neuron's `connections` list: `{target, weight}`. -/
structure Conn where
  target : String
  weight : ℚ
  deriving Repr, DecidableEq

/-- A fully-typed neuron state as the scripts read it from a frame file. -/
structure Neuron where
  id : String
  potential : ℚ
  spiked : Bool
  spike_count : ℕ
  connections : List Conn
  deriving Repr, DecidableEq

/-- A snapshot is the `neurons` list of one frame file. -/
abbrev Snapshot := List Neuron

/-- Directed edge identified by (source id, target id). -/
abbrev EdgeId := String × String

/-- Lookup in the dict `{n['id']: n for n in neurons}` followed by `.get(i)`:
in a Python dict comprehension a later entry with the same key overwrites an
earlier one, hence the first match in the reversed list. -/
def lookupNeuron (s : Snapshot) (i : String) : Option Neuron :=
  s.reverse.find? (fun n => n.id == i)

/-- `active_edges.add(e)` on a Python set, modelled on a duplicate-free list. -/
def addEdge (acc : List EdgeId) (e : EdgeId) : List EdgeId :=
  if e ∈ acc then acc else acc ++ [e]

/-- The threshold literal `0.01` of `_detect_active_connections`
("Threshold for detecting received spike"). -/
def spikeThreshold : ℚ := 1 / 100

/-- Body of the `for neuron in self.current_data['neurons']` loop of
`NetworkVisualizer._detect_active_connections` (visualize_network.py,
lines 130-149), processing one current-snapshot neuron `n` against the
previous snapshot `prev`, extending the accumulated active-edge set `acc`:

* if `prev` has no entry for `n.id` (`if prev_neuron:` falsy) nothing happens;
* rising-edge rule: `n['spiked'] and not prev_neuron['spiked']` adds
  `(n.id, c.target)` for every `c` in `n`'s (current) connection list;
* potential-jump rule: if `n['potential'] - prev_neuron['potential'] > 0.01`,
  every previous-snapshot neuron `w` with `w['spiked']` and a connection
  `c` with `c['target'] == n.id` contributes the edge `(w.id, n.id)`. -/
def detStep (prev : Snapshot) (acc : List EdgeId) (n : Neuron) : List EdgeId :=
  match lookupNeuron prev n.id with
  | none => acc
  | some pn =>
    let acc1 :=
      if n.spiked && !pn.spiked then
        n.connections.foldl (fun a c => addEdge a (n.id, c.target)) acc
      else acc
    if n.potential - pn.potential > spikeThreshold then
      prev.foldl
        (fun a w =>
          if w.spiked then
            w.connections.foldl
              (fun a2 c => if c.target == n.id then addEdge a2 (w.id, n.id) else a2) a
          else a)
        acc1
    else acc1

/-- `NetworkVisualizer._detect_active_connections` (visualize_network.py,
lines 118-151) as an explicit two-argument function of the previous and
current snapshots.  Returns the empty set when `previous_data is None`. -/
def detect_active_connections (prevOpt : Option Snapshot) (curr : Snapshot) :
    List EdgeId :=
  match prevOpt with
  | none => []
  | some prev => curr.foldl (detStep prev) []

/-! ## Topology builder and layered 3D layout -/

/-- A directed weighted graph as `networkx.DiGraph` holds it: `nodes` in
insertion order, `edges` as the list of `add_edge(u, v, weight=w)` calls
(for weight lookups later calls overwrite earlier ones; claims below only
use node membership, edge endpoints and in/out-degree-zero tests, all of
which are insensitive to duplicate `add_edge` calls). -/
structure Topology where
  nodes : List String
  edges : List (String × String × ℚ)
  deriving Repr, DecidableEq

/-- `G.add_node(n)`: a node already present is left in place. -/
def addNode (ns : List String) (n : String) : List String :=
  if n ∈ ns then ns else ns ++ [n]

/-- `_build_graph`: nodes from the snapshot's neurons in order, then one
`add_edge(neuron['id'], conn['target'], weight=conn['weight'])` per
connection (`add_edge` inserts endpoints that are not nodes yet). -/
def build_graph (s : Snapshot) : Topology :=
  let ns0 := s.foldl (fun ns n => addNode ns n.id) []
  let ns1 := s.foldl
    (fun ns n => n.connections.foldl (fun ns2 c => addNode (addNode ns2 n.id) c.target) ns)
    ns0
  { nodes := ns1
    edges := s.foldl
      (fun es n => es ++ n.connections.map (fun c => (n.id, c.target, c.weight))) [] }

/-- `in_degree[n] == 0`: no edge points at `n`. -/
def inDegreeZero (t : Topology) (n : String) : Bool :=
  t.edges.all (fun e => !(e.2.1 == n))

/-- `out_degree[n] == 0`: no edge leaves `n`. -/
def outDegreeZero (t : Topology) (n : String) : Bool :=
  t.edges.all (fun e => !(e.1 == n))

/-- `input_nodes = [n for n in G.nodes() if in_degree[n] == 0]`. -/
def input_nodes (t : Topology) : List String := t.nodes.filter (inDegreeZero t)

/-- `output_nodes = [n for n in G.nodes() if out_degree[n] == 0]`. -/
def output_nodes (t : Topology) : List String := t.nodes.filter (outDegreeZero t)

/-- `hidden_nodes = [n for n in G.nodes() if n not in input_nodes and n not in
output_nodes]`. -/
def hidden_nodes (t : Topology) : List String :=
  t.nodes.filter (fun n => !(input_nodes t).contains n && !(output_nodes t).contains n)

/-- The placement the layered layout assigns to one node: its layer together
with the enumeration index used by the corresponding placement formula (for
hidden nodes also `len(hidden_nodes)`, the divisor of the angle). -/
inductive Slot where
  | inputAt (i : ℕ)
  | hiddenAt (i count : ℕ)
  | outputAt (i : ℕ)
  deriving Repr, DecidableEq

/-- The sequence of `self.pos_3d[node_id] = ...` assignments performed by
`_calculate_3d_layout` (animate_3d_spiking.py lines 98-130, identical in
animate_training.py and visualize_3d.py's `layered` branch): first the input
loop, then the hidden loop, then the output loop.  A later assignment to the
same key overwrites an earlier one, as in a Python dict. -/
def layered_assignments (t : Topology) : List (String × Slot) :=
  ((input_nodes t).enum.map (fun p => (p.2, Slot.inputAt p.1)))
    ++ ((hidden_nodes t).enum.map (fun p => (p.2, Slot.hiddenAt p.1 (hidden_nodes t).length)))
    ++ ((output_nodes t).enum.map (fun p => (p.2, Slot.outputAt p.1)))

/-- The coordinates each slot stands for:
* input `i`: `(-2.0 + (i % 7) * 0.6, -1.0 + (i // 7) * 0.6, 0)`;
* hidden `i` of `count`: `(1.5 * cos(2πi/count), 1.5 * sin(2πi/count), 1)`;
* output `i`: `(-1.5 + i * 0.3, 2.0, 2)`. -/
noncomputable def slotPos : Slot → ℝ × ℝ × ℝ
  | Slot.inputAt i => (-2.0 + (i % 7 : ℕ) * 0.6, -1.0 + (i / 7 : ℕ) * 0.6, 0)
  | Slot.hiddenAt i count =>
      (1.5 * Real.cos (2 * Real.pi * i / count), 1.5 * Real.sin (2 * Real.pi * i / count), 1)
  | Slot.outputAt i => (-1.5 + (i : ℝ) * 0.3, 2.0, 2)

/-- `self.pos_3d` after `_calculate_3d_layout` ran, as a partial map:
last assignment wins. -/
noncomputable def calculate_3d_layout (t : Topology) (n : String) : Option (ℝ × ℝ × ℝ) :=
  ((layered_assignments t).reverse.find? (fun p => p.1 == n)).map (fun p => slotPos p.2)

/-! ## `draw_network` and the time-series playback state (visualize_network.py) -/

/-- Visual attributes computed for one node by the node loop of
`draw_network` (visualize_network.py lines 163-179): red/size-800 when
spiked, otherwise viridis intensity `min(1, max(0, potential))` and size
`300 + intensity * 200`. -/
structure NodeRender where
  id : String
  spiked : Bool
  intensity : ℚ
  size : ℚ
  deriving Repr, DecidableEq

/-- Node attributes from a neuron entry (the attributes `_build_graph` stored
on the graph node). -/
def node_render (n : Neuron) : NodeRender :=
  if n.spiked then
    { id := n.id, spiked := true, intensity := 1, size := 800 }
  else
    let intensity := min 1 (max 0 n.potential)
    { id := n.id, spiked := false, intensity := intensity, size := 300 + intensity * 200 }

/-- The pure per-node computation of `draw_network` over the graph rebuilt
from the current snapshot `d`: for every `node_id in self.G.nodes()` the
attribute lookup `self.G.nodes[node_id]['potential']` (and `spiked`,
`spike_count`) succeeds only for nodes that were added by `add_node` — i.e.
appear as a neuron entry of `d`; a node introduced solely as a connection
target has no attributes, and the indexing raises (`KeyError: 'potential'`).
Failure is modelled with `Except`. -/
def draw_network_nodes (d : Snapshot) : Except String (List NodeRender) :=
  (build_graph d).nodes.foldl
    (fun acc nid =>
      match acc with
      | Except.error e => Except.error e
      | Except.ok rs =>
        match lookupNeuron d nid with
        | none => Except.error "'potential'"
        | some n => Except.ok (rs ++ [node_render n]))
    (Except.ok [])

/-- The mutable state of a `NetworkVisualizer` during `animate_time_series`:
the loaded `time_steps`, the `current_data` / `previous_data` pair and the
cumulative `connection_activity` counter. -/
structure VizState where
  timeSteps : List Snapshot
  currentData : Snapshot
  previousData : Option Snapshot
  connectionActivity : List (EdgeId × ℕ)
  deriving Repr, DecidableEq

/-- `step_idx = frame % len(...) if loop else min(frame, len(...) - 1)`. -/
def frame_index (loop : Bool) (len frame : ℕ) : ℕ :=
  if loop then frame % len else min frame (len - 1)

/-- `self.connection_activity[edge] += 1` after the guard that inserts a
missing key with value 0 (visualize_network.py lines 336-339); a Python dict
keeps insertion order and unique keys. -/
def bumpEdge : List (EdgeId × ℕ) → EdgeId → List (EdgeId × ℕ)
  | [], e => [(e, 1)]
  | (k, v) :: rest, e =>
      if k = e then (k, v + 1) :: rest else (k, v) :: bumpEdge rest e

/-- `for edge in active: ...` over the detected set. -/
def bumpAll (c : List (EdgeId × ℕ)) (active : List EdgeId) : List (EdgeId × ℕ) :=
  active.foldl bumpEdge c

/-- `self.connection_activity.get(e, 0)`-style read used to state counter
properties (first matching key; keys are unique). -/
def countOf : List (EdgeId × ℕ) → EdgeId → ℕ
  | [], _ => 0
  | (k, v) :: rest, e => if k = e then v else countOf rest e

/-- Whether the counter holds an entry for `e`. -/
def hasEntry (c : List (EdgeId × ℕ)) (e : EdgeId) : Bool :=
  c.any (fun p => p.1 == e)

/-- One invocation of the `update_frame` closure of `animate_time_series`
(visualize_network.py lines 324-342).  Its body
* reads `self.time_steps[step_idx]`,
* shifts `previous_data := current_data`, `current_data := time_steps[step_idx]`,
* rebuilds the graph from the new current data and draws it
  (`draw_network`, whose node-attribute lookups may raise), and
* re-runs the detector and increments `connection_activity` for each
  active edge.
The surrounding `try/except` prints `"Error updating frame: ..."` and leaves
the remaining statements unexecuted; the counter is only ever bumped after a
successful draw.  Returns (new state, active set, printed error lines). -/
def update_frame (loop : Bool) (st : VizState) (frame : ℕ) :
    VizState × List EdgeId × List String :=
  match st.timeSteps[frame_index loop st.timeSteps.length frame]? with
  | none => (st, [], ["Error updating frame: list index out of range"])
  | some d =>
    let st1 : VizState :=
      { st with previousData := some st.currentData, currentData := d }
    let active := detect_active_connections (some st.currentData) d
    match draw_network_nodes d with
    | Except.error e => (st1, [], ["Error updating frame: " ++ e])
    | Except.ok _ =>
      ({ st1 with connectionActivity := bumpAll st.connectionActivity active }, active, [])

/-- The state `animate_time_series` sets up before the animation starts
(lines 320-322): `current_data = time_steps[0]`, `previous_data = None`; the
counter was initialised empty in `__init__`.  The caller supplies the head
`first` of the non-empty `ts` (the method raises earlier when `ts` is empty). -/
def animate_init (ts : List Snapshot) (first : Snapshot) : VizState :=
  { timeSteps := ts, currentData := first, previousData := none, connectionActivity := [] }

/-- The effect of `load_time_series` on the visualizer state: it re-assigns
`self.time_steps` with the newly discovered and parsed frames and touches no
other field — in particular `connection_activity` is left as it is.  (File
discovery and parsing themselves are modelled below by `load_time_series`.) -/
def load_time_series_state (st : VizState) (newFrames : List Snapshot) : VizState :=
  { st with timeSteps := newFrames }

/-! ## Raw frames and the frame-sequence loaders

`json.load` produces plain dicts; a neuron entry may lack any of the fields
the scripts later read.  A missing key is an absent `Option`. -/

/-- A raw connection dict: `target` / `weight` keys may be absent. -/
structure RawConn where
  target : Option String
  weight : Option ℚ
  deriving Repr, DecidableEq

/-- A raw neuron dict as `json.load` returns it: every field optional. -/
structure RawNeuron where
  id : Option String
  potential : Option ℚ
  spiked : Option Bool
  spike_count : Option ℕ
  connections : Option (List RawConn)
  deriving Repr, DecidableEq

/-- A raw frame file: its `neurons` list.  (The top-level `neurons` key
itself is assumed present; the claims under study concern neuron-level
fields.) -/
structure RawFrame where
  neurons : List RawNeuron
  deriving Repr, DecidableEq

/-- `neuron_data.get('potential', 0.0)` (the `_draw_frame` default). -/
def raw_potential (n : RawNeuron) : ℚ := n.potential.getD 0

/-- `neuron_data.get('spiked', False)` (the `_draw_frame` default). -/
def raw_spiked (n : RawNeuron) : Bool := n.spiked.getD false

/-- `neuron_data.get('spike_count', 0)` (the `_draw_frame` default,
animate_3d_spiking.py line 201). -/
def raw_spike_count (n : RawNeuron) : ℕ := n.spike_count.getD 0

/-- Numeric value of a digit run. -/
def digitsToNat (ds : List Char) : ℕ :=
  ds.foldl (fun acc c => 10 * acc + (c.toNat - '0'.toNat)) 0

/-- Strip `pre` from the front of `s`, or fail. -/
def stripPrefixChars (pre s : List Char) : Option (List Char) :=
  if pre.isPrefixOf s then some (s.drop pre.length) else none

/-- `re.match(f"{base_path}_step(\\d+)\\.json", filename)`: anchored at the
start only (trailing characters are permitted — `re.match` has no `$`), with
`base_path` taken literally, then `_step`, one or more digits, `.json`. -/
def match_step (basePath name : List Char) : Option ℕ :=
  match stripPrefixChars basePath name with
  | none => none
  | some r1 =>
    match stripPrefixChars "_step".toList r1 with
    | none => none
    | some r2 =>
      let ds := r2.takeWhile Char.isDigit
      if ds.isEmpty then none
      else
        match stripPrefixChars ".json".toList (r2.drop ds.length) with
        | none => none
        | some _ => some (digitsToNat ds)

/-- Whether `s` is exactly `_step` + digits + `.json` — the anchored suffix
of `re.search(r'(.+)_step\d+\.json$', base_filename)`. -/
def stepJsonEnd (s : List Char) : Bool :=
  match stripPrefixChars "_step".toList s with
  | none => false
  | some r =>
    let ds := r.takeWhile Char.isDigit
    !ds.isEmpty && (r.drop ds.length == ".json".toList)

/-- The greedy group `(.+)` of `re.search(r'(.+)_step\d+\.json$', name)`:
the longest non-empty prefix whose remainder is `_step<digits>.json`. -/
def find_base (acc rest : List Char) : Option (List Char) :=
  match rest with
  | [] => none
  | c :: cs =>
    match find_base (acc ++ [c]) cs with
    | some r => some r
    | none => if stepJsonEnd (c :: cs) && !acc.isEmpty then some acc else none

/-- `base_filename.replace('.json', '')` (Python replaces every
non-overlapping occurrence, scanning left to right). -/
def remove_json : List Char → List Char
  | [] => []
  | '.' :: 'j' :: 's' :: 'o' :: 'n' :: rest => remove_json rest
  | c :: cs => c :: remove_json cs

/-- `base_path` extraction of `load_time_series` / `_load_time_series`: the
regex group if the reference filename ends in `_step<digits>.json`, else the
filename with `.json` removed. -/
def base_path_of (name : List Char) : List Char :=
  match find_base [] name with
  | some p => p
  | none => remove_json name

/-- The pattern text interpolated into the `NoFramesFound` message:
`f"{base_path}_step(\\d+)\\.json"`. -/
def step_pattern (basePath : String) : String :=
  basePath ++ "_step(\\d+)\\.json"

/-- The `(step_num, file)` pairs collected from the directory listing:
every filename that `re.match`es the pattern, keyed by its integer group.
The directory is modelled as an association of filenames to their parsed
JSON contents. -/
def discover_steps (basePath : String) (dir : List (String × RawFrame)) :
    List (ℕ × RawFrame) :=
  dir.filterMap (fun p => (match_step basePath.toList p.1.toList).map (fun k => (k, p.2)))

/-- `step_files.sort(key=lambda x: x[0])`: ascending, stable. -/
abbrev stepLE (a b : ℕ × RawFrame) : Prop := a.1 ≤ b.1

instance : DecidableRel stepLE := fun a b => inferInstanceAs (Decidable (a.1 ≤ b.1))

instance : IsTotal (ℕ × RawFrame) stepLE := ⟨fun a b => Nat.le_total a.1 b.1⟩

instance : IsTrans (ℕ × RawFrame) stepLE := ⟨fun _ _ _ h1 h2 => le_trans h1 h2⟩

/-- `step_files.sort(key=lambda x: x[0])` — Python's stable ascending sort,
modelled by insertion sort over the key order. -/
def sort_steps (files : List (ℕ × RawFrame)) : List (ℕ × RawFrame) :=
  List.insertionSort stepLE files

/-- `NetworkVisualizer.load_time_series` (visualize_network.py lines 259-304)
and `Spike3DAnimator._load_time_series` (animate_3d_spiking.py lines 50-82):
derive the base path from the reference filename, collect every matching
file with its integer key, sort ascending by key, and parse them all; zero
matches raise `ValueError(f"No time step files found matching pattern:
{pattern}")` and no sequence is produced.  `json.load` is modelled as the
already-decoded `RawFrame` contents; no neuron field is inspected. -/
def load_time_series (base_filename : String) (dir : List (String × RawFrame)) :
    Except String (List RawFrame) :=
  let bp := String.mk (base_path_of base_filename.toList)
  let sorted := sort_steps (discover_steps bp dir)
  if sorted.isEmpty then
    Except.error ("No time step files found matching pattern: " ++ step_pattern bp)
  else
    Except.ok (sorted.map (fun p => p.2))

/-- The `(step_num, contents)` pairs `load_time_series` discovers for a given
reference filename: the pattern's base path extracted from it, then matched
against the directory listing. -/
def discovered (base_filename : String) (dir : List (String × RawFrame)) :
    List (ℕ × RawFrame) :=
  discover_steps (String.mk (base_path_of base_filename.toList)) dir

/-- `re.search(r'training_epoch(\d+)_test_digit(\d+)_step(\d+)\.json', f)`
tried at one start position (no `$`: trailing characters permitted). -/
def match_training_at (s : List Char) : Option (ℕ × ℕ × ℕ) :=
  match stripPrefixChars "training_epoch".toList s with
  | none => none
  | some r1 =>
    let d1 := r1.takeWhile Char.isDigit
    if d1.isEmpty then none
    else
      match stripPrefixChars "_test_digit".toList (r1.drop d1.length) with
      | none => none
      | some r2 =>
        let d2 := r2.takeWhile Char.isDigit
        if d2.isEmpty then none
        else
          match stripPrefixChars "_step".toList (r2.drop d2.length) with
          | none => none
          | some r3 =>
            let d3 := r3.takeWhile Char.isDigit
            if d3.isEmpty then none
            else
              match stripPrefixChars ".json".toList (r3.drop d3.length) with
              | none => none
              | some _ => some (digitsToNat d1, digitsToNat d2, digitsToNat d3)

/-- `re.search`: leftmost start position at which the pattern matches. -/
def search_training : List Char → Option (ℕ × ℕ × ℕ)
  | [] => none
  | c :: cs =>
    match match_training_at (c :: cs) with
    | some k => some k
    | none => search_training cs

/-- Remainder after the first occurrence of `pat`, scanning left to right. -/
def find_after (pat : List Char) : List Char → Option (List Char)
  | [] => if pat.isEmpty then some [] else none
  | c :: cs =>
    if pat.isPrefixOf (c :: cs) then some ((c :: cs).drop pat.length)
    else find_after pat cs

/-- `glob("training_epoch*_test_digit*_step*.json")` applied to one
filename: literal prefix, the three middle literals in order, and the
`.json` suffix at the very end (leftmost placement of the middle literals is
complete here because the final test only looks at the end of the name). -/
def glob_training (name : List Char) : Bool :=
  match stripPrefixChars "training_epoch".toList name with
  | none => false
  | some r1 =>
    match find_after "_test_digit".toList r1 with
    | none => false
    | some r2 =>
      match find_after "_step".toList r2 with
      | none => false
      | some r3 => ".json".toList.isSuffixOf r3

/-- The `(epoch, digit, step)` key of one discovered training file: the
filename must pass the glob and then parse under `re.search`
(animate_training.py lines 80-87). -/
def training_key (name : String) : Option (ℕ × ℕ × ℕ) :=
  if glob_training name.toList then search_training name.toList else none

/-- Lexicographic comparison of `(epoch, digit, step)` tuples — Python's
tuple ordering used by `parsed_files.sort(key=lambda x: (x[0], x[1], x[2]))`. -/
def tripleLE (a b : ℕ × ℕ × ℕ) : Prop :=
  a.1 < b.1 ∨ (a.1 = b.1 ∧ (a.2.1 < b.2.1 ∨ (a.2.1 = b.2.1 ∧ a.2.2 ≤ b.2.2)))

instance : DecidableRel tripleLE := fun a b => by
  unfold tripleLE; infer_instance

instance : IsTotal (ℕ × ℕ × ℕ) tripleLE := by
  constructor; intro a b; unfold tripleLE; omega

instance : IsTrans (ℕ × ℕ × ℕ) tripleLE := by
  constructor; intro a b c h1 h2; unfold tripleLE at h1 h2 ⊢; omega

/-- Key order on discovered training files. -/
abbrev trainLE (a b : (ℕ × ℕ × ℕ) × RawFrame) : Prop := tripleLE a.1 b.1

instance : DecidableRel trainLE := fun a b => inferInstanceAs (Decidable (tripleLE a.1 b.1))

instance : IsTotal ((ℕ × ℕ × ℕ) × RawFrame) trainLE :=
  ⟨fun a b => IsTotal.total (r := tripleLE) a.1 b.1⟩

instance : IsTrans ((ℕ × ℕ × ℕ) × RawFrame) trainLE :=
  ⟨fun _ _ _ h1 h2 => IsTrans.trans (r := tripleLE) _ _ _ h1 h2⟩

/-- The discovered `(epoch, digit, step, file)` records of
`_load_training_frames`. -/
def discover_training (dir : List (String × RawFrame)) :
    List ((ℕ × ℕ × ℕ) × RawFrame) :=
  dir.filterMap (fun p => (training_key p.1).map (fun k => (k, p.2)))

/-- `TrainingAnimator._load_training_frames` (animate_training.py lines
46-109): glob the training family, parse each filename's `(epoch, digit,
step)` key, sort by the key tuple, raise `ValueError("No training frame
files found")` on zero matches, and load every frame (each with its
`frame_info` key).  Base-filename auto-detection (lines 50-67) selects the
directory searched and is not modelled; the directory listing is given. -/
def sort_training (files : List ((ℕ × ℕ × ℕ) × RawFrame)) :
    List ((ℕ × ℕ × ℕ) × RawFrame) :=
  List.insertionSort trainLE files

def load_training_frames (dir : List (String × RawFrame)) :
    Except String (List ((ℕ × ℕ × ℕ) × RawFrame)) :=
  let parsed := discover_training dir
  let sorted := sort_training parsed
  if parsed.isEmpty then Except.error "No training frame files found"
  else Except.ok sorted

/-! ## Helper lemmas about the detector's edge-set accumulation -/

theorem mem_addEdge {acc : List EdgeId} {e : EdgeId} (e' : EdgeId) (h : e ∈ acc) :
    e ∈ addEdge acc e' := by
  unfold addEdge
  split
  · exact h
  · exact List.mem_append_left _ h

theorem self_mem_addEdge (acc : List EdgeId) (e : EdgeId) : e ∈ addEdge acc e := by
  unfold addEdge
  split
  · assumption
  · simp

theorem nodup_addEdge {acc : List EdgeId} (h : acc.Nodup) (e : EdgeId) :
    (addEdge acc e).Nodup := by
  unfold addEdge
  split
  · exact h
  · simp_all [List.nodup_append]

theorem foldl_preserve {α β : Type} (P : α → Prop) (f : α → β → α)
    (hf : ∀ acc b, P acc → P (f acc b)) :
    ∀ (l : List β) (acc : α), P acc → P (l.foldl f acc)
  | [], _, h => h
  | b :: l, acc, h => foldl_preserve P f hf l (f acc b) (hf acc b h)

theorem foldl_preserve_mem {α β : Type} (P : α → Prop) (f : α → β → α) (l : List β)
    (hf : ∀ acc b, b ∈ l → P acc → P (f acc b)) :
    ∀ (acc : α), P acc → P (l.foldl f acc) := by
  induction l with
  | nil => intro acc h; exact h
  | cons b t ih =>
    intro acc h
    exact ih (fun a x hx ha => hf a x (List.mem_cons_of_mem b hx) ha) (f acc b)
      (hf acc b (List.mem_cons_self b t) h)

theorem foldl_elem {α β : Type} (P : α → Prop) (f : α → β → α)
    (hf : ∀ acc b, P acc → P (f acc b)) (x : β) (hstep : ∀ acc, P (f acc x)) :
    ∀ (l : List β) (acc : α), x ∈ l → P (l.foldl f acc) := by
  intro l
  induction l with
  | nil => intro acc h; cases h
  | cons b t ih =>
    intro acc hx
    rcases List.mem_cons.mp hx with rfl | hx'
    · exact foldl_preserve P f hf t (f acc x) (hstep acc)
    · exact ih (f acc b) hx'

theorem connFold_mono {e : EdgeId} {nid : String} (a : List EdgeId) (conns : List Conn)
    (h : e ∈ a) :
    e ∈ conns.foldl (fun a2 c => addEdge a2 (nid, c.target)) a :=
  foldl_preserve (e ∈ ·) _ (fun _ _ hm => mem_addEdge _ hm) conns a h

theorem jumpInner_mono {e : EdgeId} {wid nid : String} (a : List EdgeId) (conns : List Conn)
    (h : e ∈ a) :
    e ∈ conns.foldl
      (fun a2 c => if (c.target == nid) = true then addEdge a2 (wid, nid) else a2) a :=
  foldl_preserve (e ∈ ·) _ (fun a2 c hm => by
    split
    · exact mem_addEdge _ hm
    · exact hm) conns a h

theorem jumpOuter_mono {e : EdgeId} {nid : String} (a : List EdgeId) (prev : Snapshot)
    (h : e ∈ a) :
    e ∈ prev.foldl
      (fun a2 w => if w.spiked = true then
        w.connections.foldl
          (fun a3 c => if (c.target == nid) = true then addEdge a3 (w.id, nid) else a3) a2
        else a2) a :=
  foldl_preserve (e ∈ ·) _ (fun a2 w hm => by
    split
    · exact jumpInner_mono _ _ hm
    · exact hm) prev a h

theorem detStep_mono {prev : Snapshot} {e : EdgeId} (acc : List EdgeId) (n : Neuron)
    (h : e ∈ acc) : e ∈ detStep prev acc n := by
  simp only [detStep]
  cases lookupNeuron prev n.id with
  | none => exact h
  | some pn =>
    simp only []
    have hacc1 : e ∈ (if (n.spiked && !pn.spiked) = true then
        n.connections.foldl (fun a c => addEdge a (n.id, c.target)) acc
      else acc) := by
      split
      · exact connFold_mono acc n.connections h
      · exact h
    split
    · exact jumpOuter_mono _ prev hacc1
    · exact hacc1

theorem detStep_rising {prev : Snapshot} {n pn : Neuron}
    (hL : lookupNeuron prev n.id = some pn) (hns : n.spiked = true)
    (hps : pn.spiked = false) {c : Conn} (hc : c ∈ n.connections) (acc : List EdgeId) :
    (n.id, c.target) ∈ detStep prev acc n := by
  simp only [detStep, hL]
  have hcond : (n.spiked && !pn.spiked) = true := by rw [hns, hps]; rfl
  rw [if_pos hcond]
  have hbase : (n.id, c.target) ∈
      n.connections.foldl (fun a c => addEdge a (n.id, c.target)) acc :=
    foldl_elem ((n.id, c.target) ∈ ·) (fun a c2 => addEdge a (n.id, c2.target))
      (fun a b hm => mem_addEdge _ hm) c
      (fun a => self_mem_addEdge a _) n.connections acc hc
  split
  · exact jumpOuter_mono _ prev hbase
  · exact hbase

theorem detStep_jump {prev : Snapshot} {n pn w : Neuron} {c : Conn}
    (hL : lookupNeuron prev n.id = some pn)
    (hjump : n.potential - pn.potential > spikeThreshold)
    (hw : w ∈ prev) (hws : w.spiked = true) (hc : c ∈ w.connections)
    (hct : c.target = n.id) (acc : List EdgeId) :
    (w.id, n.id) ∈ detStep prev acc n := by
  simp only [detStep, hL]
  rw [if_pos hjump]
  refine foldl_elem ((w.id, n.id) ∈ ·) _ (fun a b hm => ?_) w (fun a => ?_) prev _ hw
  · split
    · exact jumpInner_mono _ _ hm
    · exact hm
  · rw [if_pos hws]
    refine foldl_elem ((w.id, n.id) ∈ ·) _ (fun a2 c2 hm2 => by
      split
      · exact mem_addEdge _ hm2
      · exact hm2) c (fun a2 => ?_) w.connections a hc
    rw [if_pos (beq_iff_eq.mpr hct)]
    exact self_mem_addEdge a2 _

/-! ## Claim theorems: the activity detector -/

/-- Example scenario of claim C1: previous snapshot `{A: spiked=false,
pot=0.1}` with edge A→B of weight 0.4. -/
def c1_prev : Snapshot := [⟨"A", 1/10, false, 0, [⟨"B", 2/5⟩]⟩]

/-- Example scenario of claim C1: current snapshot `{A: spiked=true,
pot=0.9}` with edge A→B of weight 0.4. -/
def c1_curr : Snapshot := [⟨"A", 9/10, true, 1, [⟨"B", 2/5⟩]⟩]

/-- Claim C1 (rising-edge rule): for every pair of snapshots and every neuron
present in both whose `spiked` flag is false in the previous snapshot and
true in the current one, every outgoing edge of that neuron is contained in
the ActivitySet computed by `_detect_active_connections`; and on the spec's
example scenario (previous `{A: spiked=false, pot=0.1}`, current
`{A: spiked=true, pot=0.9}`, single edge A→B) the ActivitySet is exactly
`{(A, B)}`. -/
theorem c1_rising_edge :
    (∀ (prev curr : Snapshot) (n pn : Neuron) (c : Conn),
        n ∈ curr → lookupNeuron prev n.id = some pn →
        pn.spiked = false → n.spiked = true → c ∈ n.connections →
        (n.id, c.target) ∈ detect_active_connections (some prev) curr)
    ∧ detect_active_connections (some c1_prev) c1_curr = [("A", "B")] := by
  constructor
  · intro prev curr n pn c hmem hL hps hns hc
    simp only [detect_active_connections]
    exact foldl_elem ((n.id, c.target) ∈ ·) (detStep prev)
      (fun acc b hm => detStep_mono acc b hm) n
      (fun acc => detStep_rising hL hns hps hc acc) curr [] hmem
  · decide

/-- Witness for claim C1: the rising-edge theorem applied to the example
scenario, all hypotheses discharged at concrete inputs. -/
theorem c1_rising_edge_witness :
    ("A", "B") ∈ detect_active_connections (some c1_prev) c1_curr :=
  c1_rising_edge.1 c1_prev c1_curr ⟨"A", 9/10, true, 1, [⟨"B", 2/5⟩]⟩
    ⟨"A", 1/10, false, 0, [⟨"B", 2/5⟩]⟩ ⟨"B", 2/5⟩
    (by decide) (by decide) rfl rfl (by decide)

/-- Claim C2 (potential-jump rule): for every pair of snapshots, every neuron
`v` present in both whose potential rose by strictly more than the 0.01
threshold, and every previous-snapshot neuron `w` with `spiked = true` and a
connection targeting `v`, the edge `(w, v)` is in the ActivitySet computed
by `_detect_active_connections` — in particular, all matching presynaptic
edges are marked when several spiked neurons feed the same `v`. -/
theorem c2_potential_jump :
    ∀ (prev curr : Snapshot) (n pn w : Neuron) (c : Conn),
      n ∈ curr → lookupNeuron prev n.id = some pn →
      n.potential - pn.potential > spikeThreshold →
      w ∈ prev → w.spiked = true → c ∈ w.connections → c.target = n.id →
      (w.id, n.id) ∈ detect_active_connections (some prev) curr := by
  intro prev curr n pn w c hmem hL hjump hw hws hc hct
  simp only [detect_active_connections]
  exact foldl_elem ((w.id, n.id) ∈ ·) (detStep prev)
    (fun acc b hm => detStep_mono acc b hm) n
    (fun acc => detStep_jump hL hjump hw hws hc hct acc) curr [] hmem

/-- Witness scenario for claim C2: two presynaptic neurons `W1`, `W2`, both
spiked in the previous snapshot, both with an edge into `V`. -/
def c2_prev : Snapshot :=
  [⟨"W1", 1, true, 1, [⟨"V", 1/2⟩]⟩, ⟨"W2", 1, true, 1, [⟨"V", 1/2⟩]⟩,
   ⟨"V", 0, false, 0, []⟩]

/-- Witness scenario for claim C2: `V`'s potential jumped from 0 to 0.5. -/
def c2_curr : Snapshot :=
  [⟨"W1", 0, false, 1, [⟨"V", 1/2⟩]⟩, ⟨"W2", 0, false, 1, [⟨"V", 1/2⟩]⟩,
   ⟨"V", 1/2, false, 0, []⟩]

/-- Witness for claim C2: the potential-jump theorem applied twice on the
concrete scenario — both matching presynaptic edges are active. -/
theorem c2_potential_jump_witness :
    ("W1", "V") ∈ detect_active_connections (some c2_prev) c2_curr
    ∧ ("W2", "V") ∈ detect_active_connections (some c2_prev) c2_curr :=
  ⟨c2_potential_jump c2_prev c2_curr ⟨"V", 1/2, false, 0, []⟩ ⟨"V", 0, false, 0, []⟩
      ⟨"W1", 1, true, 1, [⟨"V", 1/2⟩]⟩ ⟨"V", 1/2⟩
      (by decide) (by decide) (by decide) (by decide) rfl (by decide) rfl,
   c2_potential_jump c2_prev c2_curr ⟨"V", 1/2, false, 0, []⟩ ⟨"V", 0, false, 0, []⟩
      ⟨"W2", 1, true, 1, [⟨"V", 1/2⟩]⟩ ⟨"V", 1/2⟩
      (by decide) (by decide) (by decide) (by decide) rfl (by decide) rfl⟩

/-- Claim C9: with no previous snapshot (`previous_data is None`, the first
frame of a session) the detector returns the empty ActivitySet for every
snapshot. -/
theorem c9_no_previous_empty (s : Snapshot) :
    detect_active_connections none s = [] := rfl

/-! ## Self-diff lemmas (claim C10) -/

theorem find?_eq_some_of_unique {α : Type} (p : α → Bool) (l : List α) (x : α)
    (hx : x ∈ l) (hp : p x = true) (huniq : ∀ y ∈ l, p y = true → y = x) :
    l.find? p = some x := by
  induction l with
  | nil => cases hx
  | cons a t ih =>
    by_cases ha : p a = true
    · have hax : a = x := huniq a (List.mem_cons_self a t) ha
      rw [List.find?_cons_of_pos t ha, hax]
    · have hx' : x ∈ t := by
        rcases List.mem_cons.mp hx with rfl | h
        · exact absurd hp ha
        · exact h
      rw [List.find?_cons_of_neg t (by simpa using ha)]
      exact ih hx' (fun y hy hpy => huniq y (List.mem_cons_of_mem a hy) hpy)

theorem eq_of_id_nodup {l : List Neuron} (h : (l.map Neuron.id).Nodup) :
    ∀ m ∈ l, ∀ n ∈ l, m.id = n.id → m = n := by
  induction l with
  | nil => intro m hm; cases hm
  | cons a t ih =>
    simp only [List.map_cons, List.nodup_cons] at h
    obtain ⟨hna, hnt⟩ := h
    intro m hm n hn hid
    rcases List.mem_cons.mp hm with rfl | hm' <;> rcases List.mem_cons.mp hn with rfl | hn'
    · rfl
    · exact absurd (hid ▸ List.mem_map_of_mem Neuron.id hn') hna
    · exact absurd (hid ▸ List.mem_map_of_mem Neuron.id hm') hna
    · exact ih hnt m hm' n hn' hid

theorem lookupNeuron_self {s : Snapshot} (h : (s.map Neuron.id).Nodup) {n : Neuron}
    (hn : n ∈ s) : lookupNeuron s n.id = some n := by
  unfold lookupNeuron
  refine find?_eq_some_of_unique _ _ n (List.mem_reverse.mpr hn) (by simp) ?_
  intro y hy hpy
  exact eq_of_id_nodup h y (List.mem_reverse.mp hy) n hn (by simpa using hpy)

theorem detStep_self {s : Snapshot} (h : (s.map Neuron.id).Nodup) {n : Neuron}
    (hn : n ∈ s) (acc : List EdgeId) : detStep s acc n = acc := by
  simp only [detStep, lookupNeuron_self h hn]
  have h1 : ¬((n.spiked && !n.spiked) = true) := by simp
  have h2 : ¬(n.potential - n.potential > spikeThreshold) := by
    rw [sub_self]
    norm_num [spikeThreshold]
  rw [if_neg h1, if_neg h2]

theorem foldl_congr_id {β : Type} (f : List EdgeId → β → List EdgeId) :
    ∀ (l : List β), (∀ acc x, x ∈ l → f acc x = acc) → ∀ acc, l.foldl f acc = acc := by
  intro l
  induction l with
  | nil => intro _ acc; rfl
  | cons b t ih =>
    intro h acc
    rw [List.foldl_cons, h acc b (List.mem_cons_self b t)]
    exact ih (fun a x hx => h a x (List.mem_cons_of_mem b hx)) acc

/-- Claim C10: diffing a snapshot against itself yields the empty
ActivitySet (no spiked flag rises and every potential difference is 0,
not above the 0.01 threshold), under the data-model invariant that neuron
ids are unique within a snapshot; consequently the first tick of
`animate_time_series`, which pairs frame 0 with itself rather than with
`None`, detects no active edges and leaves the activity counter empty. -/
theorem c10_self_diff_empty :
    ∀ (s : Snapshot), (s.map Neuron.id).Nodup →
      detect_active_connections (some s) s = []
      ∧ ∀ (ts : List Snapshot) (loop : Bool), ts.head? = some s →
          (update_frame loop (animate_init ts s) 0).2.1 = []
          ∧ (update_frame loop (animate_init ts s) 0).1.connectionActivity = [] := by
  intro s hnd
  have hdet : detect_active_connections (some s) s = [] := by
    simp only [detect_active_connections]
    exact foldl_congr_id _ s (fun acc x hx => detStep_self hnd hx acc) []
  refine ⟨hdet, ?_⟩
  intro ts loop hhead
  obtain ⟨t, rfl⟩ : ∃ t, ts = s :: t := by
    cases ts with
    | nil => cases hhead
    | cons a t =>
      have ha : a = s := by injection hhead
      exact ⟨t, by rw [ha]⟩
  have hidx : frame_index loop (s :: t).length 0 = 0 := by
    unfold frame_index
    split
    · exact Nat.zero_mod _
    · simp
  simp only [update_frame, animate_init, hidx, List.getElem?_cons_zero, hdet]
  cases hdraw : draw_network_nodes s with
  | error e => exact ⟨rfl, rfl⟩
  | ok rs => exact ⟨rfl, rfl⟩

/-- Witness snapshot for claim C10: two distinct neurons, one spiked. -/
def c10_snap : Snapshot :=
  [⟨"A", 1/2, true, 3, [⟨"B", 1⟩]⟩, ⟨"B", 1/4, false, 0, []⟩]

/-- Witness for claim C10: the self-diff theorem applied to a concrete
snapshot and the one-frame time series starting at it. -/
theorem c10_self_diff_empty_witness :
    detect_active_connections (some c10_snap) c10_snap = []
    ∧ (update_frame true (animate_init [c10_snap] c10_snap) 0).2.1 = [] :=
  ⟨(c10_self_diff_empty c10_snap (by decide)).1,
   ((c10_self_diff_empty c10_snap (by decide)).2 [c10_snap] true rfl).1⟩

/-! ## Counter lemmas (claim C8) -/

theorem countOf_bumpEdge_self (c : List (EdgeId × ℕ)) (e : EdgeId) :
    countOf (bumpEdge c e) e = countOf c e + 1 := by
  induction c with
  | nil => simp [bumpEdge, countOf]
  | cons p rest ih =>
    obtain ⟨k, v⟩ := p
    by_cases h : k = e
    · simp [bumpEdge, countOf, h]
    · simp [bumpEdge, countOf, h, ih]

theorem countOf_bumpEdge_other (c : List (EdgeId × ℕ)) (e e' : EdgeId) (h : e' ≠ e) :
    countOf (bumpEdge c e) e' = countOf c e' := by
  have hne : ¬(e = e') := fun hh => h hh.symm
  induction c with
  | nil =>
    simp only [bumpEdge, countOf]
    rw [if_neg hne]
  | cons p rest ih =>
    obtain ⟨k, v⟩ := p
    by_cases hk : k = e
    · subst hk
      simp only [bumpEdge, if_pos rfl, countOf]
      rw [if_neg hne, if_neg hne]
    · simp only [bumpEdge, if_neg hk, countOf, ih]

theorem hasEntry_bumpEdge (c : List (EdgeId × ℕ)) (e e' : EdgeId)
    (h : hasEntry c e' = true) : hasEntry (bumpEdge c e) e' = true := by
  induction c with
  | nil => simp [hasEntry] at h
  | cons p rest ih =>
    obtain ⟨k, v⟩ := p
    simp only [hasEntry, List.any_cons] at h ih ⊢
    by_cases hk : k = e
    · simp only [bumpEdge, if_pos hk, List.any_cons]
      exact h
    · simp only [bumpEdge, if_neg hk, List.any_cons]
      rcases Bool.or_eq_true_iff.mp h with h1 | h2
      · rw [h1, Bool.true_or]
      · rw [ih h2, Bool.or_true]

theorem countOf_bumpAll (c : List (EdgeId × ℕ)) (act : List EdgeId)
    (hnd : act.Nodup) (e : EdgeId) :
    countOf (bumpAll c act) e = countOf c e + (if e ∈ act then 1 else 0) := by
  induction act generalizing c with
  | nil => simp [bumpAll]
  | cons a rest ih =>
    obtain ⟨hna, hndr⟩ := List.nodup_cons.mp hnd
    simp only [bumpAll, List.foldl_cons] at ih ⊢
    by_cases he : e = a
    · subst he
      rw [ih (bumpEdge c e) hndr]
      simp [countOf_bumpEdge_self, hna]
    · rw [ih (bumpEdge c a) hndr, countOf_bumpEdge_other c a e (by exact he)]
      simp [List.mem_cons, he]

theorem hasEntry_bumpAll (c : List (EdgeId × ℕ)) (act : List EdgeId) (e : EdgeId)
    (h : hasEntry c e = true) : hasEntry (bumpAll c act) e = true := by
  induction act generalizing c with
  | nil => exact h
  | cons a rest ih =>
    simp only [bumpAll, List.foldl_cons] at ih ⊢
    exact ih (bumpEdge c a) (hasEntry_bumpEdge c a e h)

theorem connFold_nodup {nid : String} (a : List EdgeId) (conns : List Conn)
    (h : a.Nodup) :
    (conns.foldl (fun a2 c => addEdge a2 (nid, c.target)) a).Nodup :=
  foldl_preserve List.Nodup _ (fun _ _ hm => nodup_addEdge hm _) conns a h

theorem jumpInner_nodup {wid nid : String} (a : List EdgeId) (conns : List Conn)
    (h : a.Nodup) :
    (conns.foldl
      (fun a2 c => if (c.target == nid) = true then addEdge a2 (wid, nid) else a2) a).Nodup :=
  foldl_preserve List.Nodup _ (fun a2 c hm => by
    split
    · exact nodup_addEdge hm _
    · exact hm) conns a h

theorem jumpOuter_nodup {nid : String} (a : List EdgeId) (prev : Snapshot)
    (h : a.Nodup) :
    (prev.foldl
      (fun a2 w => if w.spiked = true then
        w.connections.foldl
          (fun a3 c => if (c.target == nid) = true then addEdge a3 (w.id, nid) else a3) a2
        else a2) a).Nodup :=
  foldl_preserve List.Nodup _ (fun a2 w hm => by
    split
    · exact jumpInner_nodup _ _ hm
    · exact hm) prev a h

theorem detStep_nodup (prev : Snapshot) (acc : List EdgeId) (n : Neuron)
    (h : acc.Nodup) : (detStep prev acc n).Nodup := by
  simp only [detStep]
  cases lookupNeuron prev n.id with
  | none => exact h
  | some pn =>
    simp only []
    have hacc1 : (if (n.spiked && !pn.spiked) = true then
        n.connections.foldl (fun a c => addEdge a (n.id, c.target)) acc
      else acc).Nodup := by
      split
      · exact connFold_nodup acc n.connections h
      · exact h
    split
    · exact jumpOuter_nodup _ prev hacc1
    · exact hacc1

theorem detect_nodup (p : Option Snapshot) (c : Snapshot) :
    (detect_active_connections p c).Nodup := by
  cases p with
  | none => exact List.nodup_nil
  | some prev =>
    simp only [detect_active_connections]
    exact foldl_preserve List.Nodup _ (fun acc n hm => detStep_nodup prev acc n hm)
      c [] List.nodup_nil

/-- Claim C8 (amended): one `update_frame` tick increments the cumulative
counter of every edge of that frame's ActivitySet by exactly 1, leaves every
other count unchanged, never decreases a count, and never removes an entry;
and `load_time_series` does not reset the counter — loading a new frame
sequence leaves `connection_activity` untouched (it is empty only because
`__init__` created it empty). -/
theorem c8_counter_monotone :
    ∀ (loop : Bool) (st : VizState) (frame : ℕ),
      (∀ e ∈ (update_frame loop st frame).2.1,
          countOf (update_frame loop st frame).1.connectionActivity e
            = countOf st.connectionActivity e + 1)
      ∧ (∀ e : EdgeId, e ∉ (update_frame loop st frame).2.1 →
          countOf (update_frame loop st frame).1.connectionActivity e
            = countOf st.connectionActivity e)
      ∧ (∀ e : EdgeId, countOf st.connectionActivity e
            ≤ countOf (update_frame loop st frame).1.connectionActivity e)
      ∧ (∀ e : EdgeId, hasEntry st.connectionActivity e = true →
          hasEntry (update_frame loop st frame).1.connectionActivity e = true)
      ∧ (∀ frames : List Snapshot,
          (load_time_series_state st frames).connectionActivity
            = st.connectionActivity) := by
  intro loop st frame
  cases hget : st.timeSteps[frame_index loop st.timeSteps.length frame]? with
  | none =>
    simp only [update_frame, hget]
    refine ⟨?_, ?_, ?_, ?_, ?_⟩
    · intro e he; simp at he
    · intro e _; trivial
    · intro e; exact le_refl _
    · intro e h; exact h
    · intro frames; rfl
  | some d =>
    simp only [update_frame, hget]
    cases hdraw : draw_network_nodes d with
    | error err =>
      simp only []
      refine ⟨?_, ?_, ?_, ?_, ?_⟩
      · intro e he; simp at he
      · intro e _; trivial
      · intro e; exact le_refl _
      · intro e h; exact h
      · intro frames; rfl
    | ok rs =>
      simp only []
      have hnd := detect_nodup (some st.currentData) d
      refine ⟨fun e he => ?_, fun e he => ?_, fun e => ?_, fun e h => ?_, fun frames => rfl⟩
      · rw [countOf_bumpAll _ _ hnd e, if_pos he]
      · rw [countOf_bumpAll _ _ hnd e, if_neg he]
        exact Nat.add_zero _
      · rw [countOf_bumpAll _ _ hnd e]
        exact Nat.le_add_right _ _
      · exact hasEntry_bumpAll _ _ e h

/-- Witness scenario for claim C8: previous frame (both neurons quiet). -/
def c8_prev : Snapshot :=
  [⟨"A", 0, false, 0, [⟨"B", 1/2⟩]⟩, ⟨"B", 0, false, 0, []⟩]

/-- Witness scenario for claim C8: current frame (`A` just spiked). -/
def c8_curr : Snapshot :=
  [⟨"A", 1, true, 1, [⟨"B", 1/2⟩]⟩, ⟨"B", 0, false, 0, []⟩]

/-- Witness state for claim C8: two loaded frames, cursor at frame 0. -/
def c8_st : VizState :=
  { timeSteps := [c8_prev, c8_curr], currentData := c8_prev, previousData := none,
    connectionActivity := [] }

/-- Witness for claim C8: advancing to frame 1 detects the edge (A,B) and its
counter goes up by exactly one. -/
theorem c8_counter_monotone_witness :
    ("A", "B") ∈ (update_frame true c8_st 1).2.1
    ∧ countOf (update_frame true c8_st 1).1.connectionActivity ("A", "B")
        = countOf c8_st.connectionActivity ("A", "B") + 1 :=
  ⟨by decide, (c8_counter_monotone true c8_st 1).1 ("A", "B") (by decide)⟩

/-- State for the C8 counterexample: a session whose counter already holds
three activations of (A,B). -/
def c8_loaded_st : VizState :=
  { timeSteps := [c8_prev], currentData := c8_prev, previousData := none,
    connectionActivity := [(("A", "B"), 3)] }

/-- Counterexample to claim C8 as stated: `load_time_series` does not reset
the cumulative counter — after loading a new frame sequence into a session
whose counter holds (A,B) ↦ 3, the counter still holds (A,B) ↦ 3 instead of
being reset. -/
theorem c8_counter_monotone_counterexample :
    (load_time_series_state c8_loaded_st [c8_curr]).connectionActivity
        = [(("A", "B"), 3)]
    ∧ (load_time_series_state c8_loaded_st [c8_curr]).connectionActivity ≠ [] := by
  exact ⟨rfl, by decide⟩

/-! ## Claim theorems: frame-sequence loaders -/

/-- When at least one file matched, `load_time_series` succeeds and returns
exactly the key-sorted contents — no content-dependent failure exists in the
loader. -/
theorem load_time_series_eq_ok (base : String) (dir : List (String × RawFrame))
    (hne : discovered base dir ≠ []) :
    load_time_series base dir
      = Except.ok ((sort_steps (discovered base dir)).map (fun p => p.2)) := by
  have hsne : sort_steps (discovered base dir) ≠ [] := by
    intro hnil
    have hp := List.perm_insertionSort stepLE (discovered base dir)
    rw [show List.insertionSort stepLE (discovered base dir)
          = sort_steps (discovered base dir) from rfl, hnil] at hp
    exact hne (List.perm_nil.mp hp.symm)
  simp only [load_time_series, discovered] at hsne ⊢
  rw [if_neg (by simpa [List.isEmpty_iff] using hsne)]

/-- A distinguishable raw frame used in loader scenarios (`k` recorded as a
spike count). -/
def c5_frame (k : ℕ) : RawFrame := ⟨[⟨none, none, none, some k, none⟩]⟩

/-- Loader scenario for claim C5: a directory listing whose matching files
are discovered with keys in the order [2, 0, 1]. -/
def c5_dir : List (String × RawFrame) :=
  [("net_step2.json", c5_frame 2), ("net_step0.json", c5_frame 0),
   ("net_step1.json", c5_frame 1)]

/-- Claim C5: both frame-sequence loaders sort discovered frames into
ascending OrderingKey order before playback — the step-family loader sorts
by the integer step key (discovery order [2,0,1] plays as [0,1,2]), and the
training-family loader sorts lexicographically over the (epoch, digit, step)
tuple; in both cases the sorted list is a permutation of what was
discovered, and the loaded sequence is exactly the key-sorted contents. -/
theorem c5_sorted_playback :
    (∀ (base : String) (dir : List (String × RawFrame)),
        List.Sorted stepLE (sort_steps (discovered base dir))
        ∧ (sort_steps (discovered base dir)).Perm (discovered base dir)
        ∧ (discovered base dir ≠ [] →
            load_time_series base dir
              = Except.ok ((sort_steps (discovered base dir)).map (fun p => p.2))))
    ∧ (∀ dir : List (String × RawFrame),
        List.Sorted trainLE (sort_training (discover_training dir))
        ∧ (sort_training (discover_training dir)).Perm (discover_training dir)
        ∧ (discover_training dir ≠ [] →
            load_training_frames dir
              = Except.ok (sort_training (discover_training dir))))
    ∧ load_time_series "net_step0.json" c5_dir
        = Except.ok [c5_frame 0, c5_frame 1, c5_frame 2] := by
  refine ⟨fun base dir => ⟨?_, ?_, ?_⟩, fun dir => ⟨?_, ?_, ?_⟩, ?_⟩
  · exact List.sorted_insertionSort stepLE (discovered base dir)
  · exact List.perm_insertionSort stepLE (discovered base dir)
  · exact fun hne => load_time_series_eq_ok base dir hne
  · exact List.sorted_insertionSort trainLE (discover_training dir)
  · exact List.perm_insertionSort trainLE (discover_training dir)
  · intro hne
    simp only [load_training_frames]
    rw [if_neg (by simpa [List.isEmpty_iff] using hne)]
  · rfl

/-- Witness for claim C5: the step-family loader applied to the concrete
[2,0,1] directory plays the frames in key order [0,1,2]. -/
theorem c5_sorted_playback_witness :
    load_time_series "net_step0.json" c5_dir
      = Except.ok [c5_frame 0, c5_frame 1, c5_frame 2] := by
  have h := (c5_sorted_playback.1 "net_step0.json" c5_dir).2.2 (by decide)
  rw [h]
  rfl

/-- Claim C7: when zero files in the directory match the naming-family
pattern derived from the reference file, `load_time_series` fails with the
no-frames error whose message names the pattern that was tried
(`ValueError(f"No time step files found matching pattern: {pattern}")`), and
no frame sequence is produced. -/
theorem c7_no_frames_found :
    ∀ (base : String) (dir : List (String × RawFrame)),
      discovered base dir = [] →
      load_time_series base dir
        = Except.error ("No time step files found matching pattern: "
            ++ step_pattern (String.mk (base_path_of base.toList)))
      ∧ ∀ frames : List RawFrame, load_time_series base dir ≠ Except.ok frames := by
  intro base dir hdisc
  have hload : load_time_series base dir
      = Except.error ("No time step files found matching pattern: "
          ++ step_pattern (String.mk (base_path_of base.toList))) := by
    simp only [load_time_series, discovered] at hdisc ⊢
    rw [hdisc]
    rfl
  exact ⟨hload, fun frames hok => by rw [hload] at hok; cases hok⟩

/-- Witness for claim C7: a directory with no matching file makes the loader
fail with the message naming the `net_step(\d+)\.json` pattern. -/
theorem c7_no_frames_found_witness :
    load_time_series "net_step0.json" [("other.txt", c5_frame 0)]
      = Except.error "No time step files found matching pattern: net_step(\\d+)\\.json" := by
  have h := (c7_no_frames_found "net_step0.json" [("other.txt", c5_frame 0)] (by decide)).1
  rw [h]
  rfl

/-! ## Claim C3: parse-time validation (corrected) -/

/-- A well-formed raw neuron entry. -/
def c3_ok_neuron : RawNeuron := ⟨some "A", some 0, some false, some 0, some []⟩

/-- A raw neuron entry whose `spike_count` field is missing. -/
def c3_bad_neuron : RawNeuron := ⟨some "A", some 0, some false, none, some []⟩

/-- First frame of the C3 scenario (well-formed). -/
def c3_frame0 : RawFrame := ⟨[c3_ok_neuron]⟩

/-- Second frame of the C3 scenario: its neuron lacks `spike_count`. -/
def c3_frame1 : RawFrame := ⟨[c3_bad_neuron]⟩

/-- Directory for the C3 scenario: two matching files, the second missing a
required neuron field. -/
def c3_dir : List (String × RawFrame) :=
  [("net_step0.json", c3_frame0), ("net_step1.json", c3_frame1)]

/-- Counterexample to claim C3: loading a sequence one of whose frames lacks
a neuron's `spike_count` does NOT fail with a `MalformedSnapshot` error and
does NOT abort the bulk load — both frames are retained (`json.load`
performs no field validation), and `_draw_frame` later renders the missing
`spike_count` as the default 0. -/
theorem c3_counterexample :
    load_time_series "net_step0.json" c3_dir = Except.ok [c3_frame0, c3_frame1]
    ∧ raw_spike_count c3_bad_neuron = 0 := by
  exact ⟨by rfl, rfl⟩

/-- Claim C3 (amended): the loaders perform no per-field validation — any
frame that decodes as JSON is retained, and the bulk load succeeds whenever
at least one file matches the pattern, returning every matched frame
regardless of missing neuron fields; a neuron entry missing `potential`,
`spiked` or `spike_count` is rendered with the defaults 0.0 / False / 0
(`neuron_data.get(...)` in `_draw_frame`) instead of raising an error. -/
theorem c3_no_validation :
    (∀ (base : String) (dir : List (String × RawFrame)),
        discovered base dir ≠ [] →
        ∃ frames : List RawFrame,
          load_time_series base dir = Except.ok frames
          ∧ frames.Perm ((discovered base dir).map (fun p => p.2)))
    ∧ (∀ n : RawNeuron, n.spike_count = none → raw_spike_count n = 0)
    ∧ (∀ n : RawNeuron, n.potential = none → raw_potential n = 0)
    ∧ (∀ n : RawNeuron, n.spiked = none → raw_spiked n = false) := by
  refine ⟨fun base dir hne => ?_, fun n h => ?_, fun n h => ?_, fun n h => ?_⟩
  · refine ⟨(sort_steps (discovered base dir)).map (fun p => p.2),
      load_time_series_eq_ok base dir hne, ?_⟩
    exact List.Perm.map _ (List.perm_insertionSort stepLE (discovered base dir))
  · simp [raw_spike_count, h]
  · simp [raw_potential, h]
  · simp [raw_spiked, h]

/-- Witness for claim C3 (amended): the loader succeeds on the concrete
directory whose second frame lacks `spike_count`, and that neuron's
rendered spike count defaults to 0. -/
theorem c3_no_validation_witness :
    (∃ frames : List RawFrame,
        load_time_series "net_step0.json" c3_dir = Except.ok frames)
    ∧ raw_spike_count c3_bad_neuron = 0 := by
  refine ⟨?_, c3_no_validation.2.1 c3_bad_neuron rfl⟩
  obtain ⟨frames, hok, -⟩ := c3_no_validation.1 "net_step0.json" c3_dir (by decide)
  exact ⟨frames, hok⟩

/-! ## Claim C6: unknown neuron ids (corrected) -/

theorem mem_addEdge_elim {acc : List EdgeId} {e x : EdgeId} (h : e ∈ addEdge acc x) :
    e ∈ acc ∨ e = x := by
  unfold addEdge at h
  split at h
  · exact Or.inl h
  · rcases List.mem_append.mp h with h1 | h2
    · exact Or.inl h1
    · exact Or.inr (List.mem_singleton.mp h2)

theorem lookupNeuron_mem {s : Snapshot} {i : String} {m : Neuron}
    (h : lookupNeuron s i = some m) : m ∈ s ∧ m.id = i := by
  unfold lookupNeuron at h
  exact ⟨List.mem_reverse.mp (List.mem_of_find?_eq_some h),
    by simpa using List.find?_some h⟩

theorem lookupNeuron_isSome_of_mem {s : Snapshot} {i : String}
    (h : i ∈ s.map Neuron.id) : ∃ m, lookupNeuron s i = some m ∧ m.id = i := by
  obtain ⟨n, hn, rfl⟩ := List.mem_map.mp h
  cases hf : lookupNeuron s n.id with
  | none =>
    exfalso
    unfold lookupNeuron at hf
    have := List.find?_eq_none.mp hf n (List.mem_reverse.mpr hn)
    simp at this
  | some m => exact ⟨m, rfl, (lookupNeuron_mem hf).2⟩

theorem mem_addNode_of_mem {ns : List String} {m : String} (x : String) (h : m ∈ ns) :
    m ∈ addNode ns x := by
  unfold addNode
  split
  · exact h
  · exact List.mem_append_left _ h

theorem self_mem_addNode (ns : List String) (x : String) : x ∈ addNode ns x := by
  unfold addNode
  split
  · assumption
  · simp

theorem mem_addNode_iff {ns : List String} {n m : String} :
    m ∈ addNode ns n ↔ m ∈ ns ∨ m = n := by
  unfold addNode
  split
  · constructor
    · exact Or.inl
    · rintro (h1 | rfl)
      · exact h1
      · assumption
  · simp [List.mem_append]

theorem build_graph_nodes_sub (d : Snapshot) :
    ∀ m ∈ (build_graph d).nodes,
      m ∈ d.map Neuron.id ∨ ∃ n ∈ d, ∃ c ∈ n.connections, c.target = m := by
  show ∀ m ∈ d.foldl
      (fun ns n => n.connections.foldl (fun ns2 c => addNode (addNode ns2 n.id) c.target) ns)
      (d.foldl (fun ns n => addNode ns n.id) []), _
  have h0 : ∀ x ∈ d.foldl (fun ns n => addNode ns n.id) [], x ∈ d.map Neuron.id := by
    refine foldl_preserve_mem (fun ns => ∀ x ∈ ns, x ∈ d.map Neuron.id)
      (fun ns n => addNode ns n.id) d (fun acc n hn hP x hx => ?_) []
      (fun x hx => absurd hx (List.not_mem_nil _))
    rcases mem_addNode_iff.mp hx with h | rfl
    · exact hP x h
    · exact List.mem_map_of_mem Neuron.id hn
  refine foldl_preserve_mem
    (fun ns => ∀ x ∈ ns, x ∈ d.map Neuron.id ∨ ∃ n ∈ d, ∃ c ∈ n.connections, c.target = x)
    _ d (fun acc n hn hP => ?_) _ (fun x hx => Or.inl (h0 x hx))
  refine foldl_preserve_mem
    (fun ns => ∀ x ∈ ns, x ∈ d.map Neuron.id ∨ ∃ n2 ∈ d, ∃ c2 ∈ n2.connections, c2.target = x)
    (fun ns2 c => addNode (addNode ns2 n.id) c.target) n.connections
    (fun acc2 c hc hP2 x hx => ?_) acc hP
  rcases mem_addNode_iff.mp hx with hx' | rfl
  · rcases mem_addNode_iff.mp hx' with h | rfl
    · exact hP2 x h
    · exact Or.inl (List.mem_map_of_mem Neuron.id hn)
  · exact Or.inr ⟨n, hn, c, hc, rfl⟩

theorem id_mem_build_graph_nodes (d : Snapshot) :
    ∀ n ∈ d, n.id ∈ (build_graph d).nodes := by
  intro n hn
  show n.id ∈ d.foldl
      (fun ns n => n.connections.foldl (fun ns2 c => addNode (addNode ns2 n.id) c.target) ns)
      (d.foldl (fun ns n => addNode ns n.id) [])
  have h1 : n.id ∈ d.foldl (fun ns n2 => addNode ns n2.id) [] :=
    foldl_elem (n.id ∈ ·) (fun ns n2 => addNode ns n2.id)
      (fun acc b hm => mem_addNode_of_mem _ hm) n
      (fun acc => self_mem_addNode acc n.id) d [] hn
  exact foldl_preserve (n.id ∈ ·) _
    (fun acc b hm =>
      foldl_preserve (n.id ∈ ·) _
        (fun a2 c hm2 => mem_addNode_of_mem _ (mem_addNode_of_mem _ hm2))
        b.connections acc hm)
    d _ h1

theorem node_render_id (n : Neuron) : (node_render n).id = n.id := by
  unfold node_render
  split <;> rfl

theorem draw_fold_ok (d : Snapshot) :
    ∀ (ns : List String) (rs0 : List NodeRender),
      (∀ nid ∈ ns, nid ∈ d.map Neuron.id) →
      ∃ rs, ns.foldl
          (fun acc nid =>
            match acc with
            | Except.error e => Except.error e
            | Except.ok rs =>
              match lookupNeuron d nid with
              | none => Except.error "'potential'"
              | some n => Except.ok (rs ++ [node_render n]))
          (Except.ok rs0)
        = Except.ok rs
      ∧ (∀ r ∈ rs0, r ∈ rs)
      ∧ (∀ nid ∈ ns, ∃ r ∈ rs, r.id = nid) := by
  intro ns
  induction ns with
  | nil =>
    intro rs0 _
    exact ⟨rs0, rfl, fun r hr => hr, fun nid h => absurd h (List.not_mem_nil _)⟩
  | cons nid t ih =>
    intro rs0 h
    obtain ⟨m, hm, hmid⟩ := lookupNeuron_isSome_of_mem (h nid (List.mem_cons_self nid t))
    obtain ⟨rs, heq, hsub, hall⟩ :=
      ih (rs0 ++ [node_render m]) (fun x hx => h x (List.mem_cons_of_mem nid hx))
    refine ⟨rs, ?_, ?_, ?_⟩
    · rw [List.foldl_cons]
      simp only [hm]
      exact heq
    · intro r hr
      exact hsub r (List.mem_append_left _ hr)
    · intro x hx
      rcases List.mem_cons.mp hx with rfl | hx'
      · exact ⟨node_render m, hsub _ (List.mem_append_right _ (by simp)),
          by rw [node_render_id, hmid]⟩
      · exact hall x hx'

theorem draw_network_nodes_ok (d : Snapshot)
    (hclosed : ∀ n ∈ d, ∀ c ∈ n.connections, c.target ∈ d.map Neuron.id) :
    ∃ rs, draw_network_nodes d = Except.ok rs
      ∧ ∀ nid ∈ (build_graph d).nodes, ∃ r ∈ rs, r.id = nid := by
  have hids : ∀ nid ∈ (build_graph d).nodes, nid ∈ d.map Neuron.id := by
    intro nid hm
    rcases build_graph_nodes_sub d nid hm with h | ⟨n, hn, c, hc, rfl⟩
    · exact h
    · exact hclosed n hn c hc
  obtain ⟨rs, heq, _, hall⟩ := draw_fold_ok d (build_graph d).nodes [] hids
  exact ⟨rs, heq, hall⟩

theorem detStep_sources (p : Snapshot) (acc : List EdgeId) (n : Neuron)
    (h : ∀ e ∈ acc, e.1 ∈ p.map Neuron.id) :
    ∀ e ∈ detStep p acc n, e.1 ∈ p.map Neuron.id := by
  simp only [detStep]
  cases hL : lookupNeuron p n.id with
  | none => exact h
  | some pn =>
    have hnid : n.id ∈ p.map Neuron.id := by
      obtain ⟨hmem, hid⟩ := lookupNeuron_mem hL
      rw [← hid]
      exact List.mem_map_of_mem Neuron.id hmem
    simp only []
    have hacc1 : ∀ e ∈ (if (n.spiked && !pn.spiked) = true then
        n.connections.foldl (fun a c => addEdge a (n.id, c.target)) acc
      else acc), e.1 ∈ p.map Neuron.id := by
      split
      · refine foldl_preserve (fun a => ∀ e ∈ a, e.1 ∈ p.map Neuron.id)
          (fun a c => addEdge a (n.id, c.target)) (fun a c hP e he => ?_)
          n.connections acc h
        rcases mem_addEdge_elim he with h' | rfl
        · exact hP e h'
        · exact hnid
      · exact h
    split
    · refine foldl_preserve_mem (fun a : List EdgeId => ∀ e ∈ a, e.1 ∈ p.map Neuron.id)
        _ p (fun a w hwp hP => ?_) _ hacc1
      by_cases hws : w.spiked = true
      · simp only [if_pos hws]
        refine foldl_preserve (fun a2 => ∀ e ∈ a2, e.1 ∈ p.map Neuron.id)
          (fun a2 c => if (c.target == n.id) = true then addEdge a2 (w.id, n.id) else a2)
          (fun a2 c hP2 => by
            intro e he
            revert he
            dsimp only
            split
            · intro he
              rcases mem_addEdge_elim he with h' | rfl
              · exact hP2 e h'
              · exact List.mem_map_of_mem Neuron.id hwp
            · intro he
              exact hP2 e he) w.connections a hP
      · simp only [if_neg hws]
        exact hP
    · exact hacc1

theorem detect_sources (p : Snapshot) (c : Snapshot) :
    ∀ e ∈ detect_active_connections (some p) c, e.1 ∈ p.map Neuron.id := by
  simp only [detect_active_connections]
  exact foldl_preserve (fun acc => ∀ e ∈ acc, e.1 ∈ p.map Neuron.id)
    (detStep p) (fun acc n hP => detStep_sources p acc n hP) c []
    (fun e he => absurd he (List.not_mem_nil _))

/-- Claim C6 (amended): a later snapshot referencing a neuron id absent from
the first snapshot's topology does not fail the frame, but nothing is logged
either — the 2D animator rebuilds the graph from the current snapshot, so
the unknown id is incorporated and rendered like any other node; the
activity detector silently skips ids with no entry in the previous snapshot
(every detected edge's source has a previous entry); and the tick completes
normally for every id of the current snapshot (whose connection targets all
resolve). -/
theorem c6_unknown_id_lenient :
    ∀ (loop : Bool) (st : VizState) (frame : ℕ) (d : Snapshot),
      st.timeSteps[frame_index loop st.timeSteps.length frame]? = some d →
      (∀ n ∈ d, ∀ c ∈ n.connections, c.target ∈ d.map Neuron.id) →
      (update_frame loop st frame).2.2 = []
      ∧ (update_frame loop st frame).1.currentData = d
      ∧ (∃ rs, draw_network_nodes d = Except.ok rs
            ∧ ∀ n ∈ d, ∃ r ∈ rs, r.id = n.id)
      ∧ (∀ e ∈ (update_frame loop st frame).2.1,
            e.1 ∈ st.currentData.map Neuron.id) := by
  intro loop st frame d hget hclosed
  obtain ⟨rs, hdraw, hall⟩ := draw_network_nodes_ok d hclosed
  have hupd : update_frame loop st frame
      = (⟨st.timeSteps, d, some st.currentData,
          bumpAll st.connectionActivity
            (detect_active_connections (some st.currentData) d)⟩,
         detect_active_connections (some st.currentData) d, []) := by
    simp only [update_frame, hget, hdraw]
  rw [hupd]
  refine ⟨rfl, rfl, ⟨rs, hdraw, ?_⟩, ?_⟩
  · intro n hn
    exact hall n.id (id_mem_build_graph_nodes d n hn)
  · exact detect_sources st.currentData d

/-- Previous frame of the C6 scenario (only neuron `A` exists). -/
def c6_prev_snap : Snapshot := [⟨"A", 0, false, 0, []⟩]

/-- Current frame of the C6 scenario: references the id `X`, absent from the
first snapshot's topology. -/
def c6_curr_snap : Snapshot := [⟨"A", 0, false, 0, []⟩, ⟨"X", 1/2, true, 1, []⟩]

/-- Playback state of the C6 scenario, positioned on frame 0. -/
def c6_st : VizState :=
  { timeSteps := [c6_prev_snap, c6_curr_snap], currentData := c6_prev_snap,
    previousData := none, connectionActivity := [] }

/-- Counterexample to claim C6 as stated: advancing onto the frame that
introduces the unknown id `X` logs nothing (the printed-error list is empty,
so the unknown id's state is not logged), and `X` is not ignored either —
the graph is rebuilt from the current snapshot, so `X` is among the drawn
nodes. -/
theorem c6_unknown_id_counterexample :
    (update_frame true c6_st 1).2.2 = []
    ∧ "X" ∈ (build_graph c6_curr_snap).nodes := by
  constructor
  · rfl
  · decide

/-- Witness for claim C6 (amended): the lenient-tick theorem applied to the
concrete unknown-id scenario. -/
theorem c6_unknown_id_lenient_witness :
    (update_frame true c6_st 1).2.2 = []
    ∧ (update_frame true c6_st 1).1.currentData = c6_curr_snap :=
  ⟨(c6_unknown_id_lenient true c6_st 1 c6_curr_snap rfl (by decide)).1,
   (c6_unknown_id_lenient true c6_st 1 c6_curr_snap rfl (by decide)).2.1⟩

/-! ## Claim C4: the layered layout (corrected) -/

theorem reverse_find_unique {α : Type} {A : List (String × α)} {n : String} {s : α}
    (hmem : (n, s) ∈ A) (huniq : ∀ p ∈ A, p.1 = n → p = (n, s)) :
    A.reverse.find? (fun p => p.1 == n) = some (n, s) :=
  find?_eq_some_of_unique _ _ _ (List.mem_reverse.mpr hmem) (by simp)
    (fun y hy hpy => huniq y (List.mem_reverse.mp hy) (by simpa using hpy))

theorem mem_of_getElem_opt {α : Type} {l : List α} {i : ℕ} {x : α}
    (h : l[i]? = some x) : x ∈ l := by
  obtain ⟨hl, he⟩ := List.getElem?_eq_some.mp h
  exact he ▸ List.getElem_mem hl

theorem nodup_getElem_opt_inj {α : Type} {l : List α} (h : l.Nodup) {i j : ℕ} {x : α}
    (hi : l[i]? = some x) (hj : l[j]? = some x) : i = j := by
  obtain ⟨hil, hie⟩ := List.getElem?_eq_some.mp hi
  obtain ⟨hjl, hje⟩ := List.getElem?_eq_some.mp hj
  exact (List.Nodup.getElem_inj_iff h).mp (hie.trans hje.symm)

theorem contains_eq_false_of_not_mem {l : List String} {x : String} (h : x ∉ l) :
    l.contains x = false := by
  cases hc : l.contains x
  · rfl
  · exact absurd (List.elem_iff.mp hc) h

theorem contains_eq_true_of_mem {l : List String} {x : String} (h : x ∈ l) :
    l.contains x = true := List.elem_iff.mpr h

theorem input_sub_nodes {t : Topology} {n : String} (h : n ∈ input_nodes t) :
    n ∈ t.nodes := (List.mem_filter.mp h).1

theorem output_sub_nodes {t : Topology} {n : String} (h : n ∈ output_nodes t) :
    n ∈ t.nodes := (List.mem_filter.mp h).1

theorem hidden_sub_nodes {t : Topology} {n : String} (h : n ∈ hidden_nodes t) :
    n ∈ t.nodes := (List.mem_filter.mp h).1

theorem hidden_not_input {t : Topology} {n : String} (h : n ∈ hidden_nodes t) :
    n ∉ input_nodes t := by
  obtain ⟨-, hp⟩ := List.mem_filter.mp h
  intro hin
  rw [contains_eq_true_of_mem hin] at hp
  simp at hp

theorem hidden_not_output {t : Topology} {n : String} (h : n ∈ hidden_nodes t) :
    n ∉ output_nodes t := by
  obtain ⟨-, hp⟩ := List.mem_filter.mp h
  intro hout
  rw [contains_eq_true_of_mem hout] at hp
  simp at hp

theorem mem_hidden_of_not_in_out {t : Topology} {n : String} (hn : n ∈ t.nodes)
    (h1 : n ∉ input_nodes t) (h2 : n ∉ output_nodes t) : n ∈ hidden_nodes t :=
  List.mem_filter.mpr ⟨hn, by
    rw [contains_eq_false_of_not_mem h1, contains_eq_false_of_not_mem h2]
    rfl⟩

theorem mem_enum_slot_map {l : List String} {mk : ℕ → Slot} {x : String} {s : Slot} :
    (x, s) ∈ l.enum.map (fun p => (p.2, mk p.1)) ↔ ∃ i, l[i]? = some x ∧ s = mk i := by
  constructor
  · intro h
    obtain ⟨⟨i, y⟩, hmem, heq⟩ := List.mem_map.mp h
    obtain ⟨h1, h2⟩ := Prod.mk.injEq _ _ _ _ ▸ heq
    subst h1
    exact ⟨i, List.mk_mem_enum_iff_getElem?.mp hmem, h2.symm⟩
  · rintro ⟨i, hget, rfl⟩
    exact List.mem_map.mpr ⟨(i, x), List.mk_mem_enum_iff_getElem?.mpr hget, rfl⟩

theorem layered_lookup_of_unique (t : Topology) {n : String} {s : Slot}
    (hmem : (n, s) ∈ layered_assignments t)
    (huniq : ∀ p ∈ layered_assignments t, p.1 = n → p = (n, s)) :
    calculate_3d_layout t n = some (slotPos s) := by
  unfold calculate_3d_layout
  rw [reverse_find_unique hmem huniq]
  rfl

/-- Claim C4 (amended): for a topology in which no node has both in-degree 0
and out-degree 0, the layered layout partitions the nodes into input
(in-degree 0), output (out-degree 0) and hidden (remainder), and places the
i-th input node at `(-2.0 + (i % 7) * 0.6, -1.0 + (i // 7) * 0.6, 0)`, the
i-th hidden node at `(1.5 cos(2πi/|hidden|), 1.5 sin(2πi/|hidden|), 1)` and
the i-th output node at `(-1.5 + i * 0.3, 2.0, 2)` (the `slotPos` formulas).
For a node that is both input and output the claim fails as stated: the
output-loop assignment overwrites the input one (see the counterexample). -/
theorem c4_layered_layout :
    ∀ t : Topology, t.nodes.Nodup →
      (∀ n ∈ t.nodes, ¬(n ∈ input_nodes t ∧ n ∈ output_nodes t)) →
      (∀ n ∈ t.nodes,
          (n ∈ input_nodes t ∨ n ∈ hidden_nodes t ∨ n ∈ output_nodes t)
          ∧ ¬(n ∈ input_nodes t ∧ n ∈ hidden_nodes t)
          ∧ ¬(n ∈ hidden_nodes t ∧ n ∈ output_nodes t))
      ∧ (∀ (i : ℕ) (n : String), (input_nodes t)[i]? = some n →
          calculate_3d_layout t n = some (slotPos (Slot.inputAt i)))
      ∧ (∀ (i : ℕ) (n : String), (hidden_nodes t)[i]? = some n →
          calculate_3d_layout t n
            = some (slotPos (Slot.hiddenAt i (hidden_nodes t).length)))
      ∧ (∀ (i : ℕ) (n : String), (output_nodes t)[i]? = some n →
          calculate_3d_layout t n = some (slotPos (Slot.outputAt i))) := by
  intro t hnd hdisj
  have hndI : (input_nodes t).Nodup := hnd.filter _
  have hndH : (hidden_nodes t).Nodup := hnd.filter _
  have hndO : (output_nodes t).Nodup := hnd.filter _
  refine ⟨fun n hn => ⟨?_, ?_, ?_⟩, fun i n hget => ?_, fun i n hget => ?_,
    fun i n hget => ?_⟩
  · by_cases h1 : n ∈ input_nodes t
    · exact Or.inl h1
    · by_cases h2 : n ∈ output_nodes t
      · exact Or.inr (Or.inr h2)
      · exact Or.inr (Or.inl (mem_hidden_of_not_in_out hn h1 h2))
  · rintro ⟨hin, hhid⟩
    exact hidden_not_input hhid hin
  · rintro ⟨hhid, hout⟩
    exact hidden_not_output hhid hout
  · -- i-th input node
    have hnin : n ∈ input_nodes t := mem_of_getElem_opt hget
    refine layered_lookup_of_unique t
      (List.mem_append_left _ (List.mem_append_left _
        ((@mem_enum_slot_map (input_nodes t) Slot.inputAt n _).mpr ⟨i, hget, rfl⟩))) ?_
    intro p hp hp1
    obtain ⟨x, s⟩ := p
    dsimp only at hp1
    subst hp1
    rcases List.mem_append.mp hp with hmem12 | hmemO
    · rcases List.mem_append.mp hmem12 with hmem1 | hmemH
      · obtain ⟨j, hjget, rfl⟩ := mem_enum_slot_map.mp hmem1
        rw [nodup_getElem_opt_inj hndI hjget hget]
      · obtain ⟨j, hjget, rfl⟩ := (@mem_enum_slot_map (hidden_nodes t) (fun j => Slot.hiddenAt j (hidden_nodes t).length) x s).mp hmemH
        exact absurd hnin (hidden_not_input (mem_of_getElem_opt hjget))
    · obtain ⟨j, hjget, rfl⟩ := mem_enum_slot_map.mp hmemO
      exact absurd ⟨hnin, mem_of_getElem_opt hjget⟩ (hdisj x (input_sub_nodes hnin))
  · -- i-th hidden node
    have hnh : n ∈ hidden_nodes t := mem_of_getElem_opt hget
    refine layered_lookup_of_unique t
      (List.mem_append_left _ (List.mem_append_right _
        ((@mem_enum_slot_map (hidden_nodes t)
            (fun j => Slot.hiddenAt j (hidden_nodes t).length) n _).mpr
          ⟨i, hget, rfl⟩))) ?_
    intro p hp hp1
    obtain ⟨x, s⟩ := p
    dsimp only at hp1
    subst hp1
    rcases List.mem_append.mp hp with hmem12 | hmemO
    · rcases List.mem_append.mp hmem12 with hmem1 | hmemH
      · obtain ⟨j, hjget, rfl⟩ := mem_enum_slot_map.mp hmem1
        exact absurd (mem_of_getElem_opt hjget) (hidden_not_input hnh)
      · obtain ⟨j, hjget, rfl⟩ := (@mem_enum_slot_map (hidden_nodes t) (fun j => Slot.hiddenAt j (hidden_nodes t).length) x s).mp hmemH
        rw [nodup_getElem_opt_inj hndH hjget hget]
    · obtain ⟨j, hjget, rfl⟩ := mem_enum_slot_map.mp hmemO
      exact absurd (mem_of_getElem_opt hjget) (hidden_not_output hnh)
  · -- i-th output node
    have hno : n ∈ output_nodes t := mem_of_getElem_opt hget
    refine layered_lookup_of_unique t
      (List.mem_append_right _
        ((@mem_enum_slot_map (output_nodes t) Slot.outputAt n _).mpr
          ⟨i, hget, rfl⟩)) ?_
    intro p hp hp1
    obtain ⟨x, s⟩ := p
    dsimp only at hp1
    subst hp1
    rcases List.mem_append.mp hp with hmem12 | hmemO
    · rcases List.mem_append.mp hmem12 with hmem1 | hmemH
      · obtain ⟨j, hjget, rfl⟩ := mem_enum_slot_map.mp hmem1
        exact absurd ⟨mem_of_getElem_opt hjget, hno⟩
          (hdisj x (output_sub_nodes hno))
      · obtain ⟨j, hjget, rfl⟩ := (@mem_enum_slot_map (hidden_nodes t) (fun j => Slot.hiddenAt j (hidden_nodes t).length) x s).mp hmemH
        exact absurd (mem_of_getElem_opt hjget) (fun hh => hidden_not_output hh hno)
    · obtain ⟨j, hjget, rfl⟩ := mem_enum_slot_map.mp hmemO
      rw [nodup_getElem_opt_inj hndO hjget hget]

/-- Topology with a single isolated node: in-degree 0 and out-degree 0. -/
def c4_t0 : Topology := ⟨["A"], []⟩

/-- The claim's example topology: A → B → C. -/
def c4_tABC : Topology := ⟨["A", "B", "C"], [("A", "B", 1/2), ("B", "C", 1/2)]⟩

/-- Counterexample to claim C4 as stated: for a topology with one isolated
node `A`, the classes overlap (`A` has both in-degree 0 and out-degree 0, so
input and output are not a partition), and `A` is NOT placed at the 0-th
input grid position (−2.0, −1.0, 0): the output loop runs after the input
loop and overwrites the assignment, leaving `A` at (−1.5, 2.0, 2). -/
theorem c4_layered_layout_counterexample :
    ("A" ∈ input_nodes c4_t0 ∧ "A" ∈ output_nodes c4_t0)
    ∧ calculate_3d_layout c4_t0 "A" = some ((-1.5 : ℝ), 2.0, 2)
    ∧ calculate_3d_layout c4_t0 "A" ≠ some ((-2.0 : ℝ), -1.0, 0) := by
  have hfind : (layered_assignments c4_t0).reverse.find? (fun p => p.1 == "A")
      = some ("A", Slot.outputAt 0) := by decide
  have hmid : calculate_3d_layout c4_t0 "A" = some ((-1.5 : ℝ), 2.0, 2) := by
    unfold calculate_3d_layout
    rw [hfind]
    simp only [Option.map_some']
    norm_num [slotPos]
  refine ⟨⟨by decide, by decide⟩, hmid, ?_⟩
  rw [hmid]
  intro h
  injection h with h'
  have := congrArg Prod.fst h'
  norm_num at this

/-- Witness for claim C4 (amended): on the A → B → C topology the layered
layout places A at (−2.0, −1.0, 0), B at (1.5, 0, 1) and C at (−1.5, 2.0, 2),
the spec's example values. -/
theorem c4_layered_layout_witness :
    calculate_3d_layout c4_tABC "A" = some ((-2.0 : ℝ), -1.0, 0)
    ∧ calculate_3d_layout c4_tABC "B" = some ((1.5 : ℝ), 0, 1)
    ∧ calculate_3d_layout c4_tABC "C" = some ((-1.5 : ℝ), 2.0, 2) := by
  have h := c4_layered_layout c4_tABC (by decide) (by decide)
  refine ⟨?_, ?_, ?_⟩
  · have hA := h.2.1 0 "A" (by decide)
    rw [hA]
    norm_num [slotPos]
  · have hB := h.2.2.1 0 "B" (by decide)
    rw [hB]
    have hlen : (hidden_nodes c4_tABC).length = 1 := by decide
    rw [hlen]
    norm_num [slotPos, Real.cos_zero, Real.sin_zero]
  · have hC := h.2.2.2 0 "C" (by decide)
    rw [hC]
    norm_num [slotPos]

end SpikeNet
